import Mathlib

/-!
Verification of the JV-LMS assignment authoring and auto-grading core.

The definitions below are a shallow embedding of the TypeScript source:

* string helpers model the JavaScript string/array primitives the code uses
  (trim, split, toLowerCase, join, the default lexicographic sort of
  Array.prototype.sort, Math.round, Number);
* the data model mirrors the interfaces in the types module;
* each handler (handleSubmit auto-grading, the notes-completion bracket
  extraction of getPreviewAssignment / handleSaveAssignment,
  handleGroupTypeChange, toggleMcqCorrectAnswer, the analyticsData
  aggregation of the Gradebook) is translated function by function.

Strings are modelled by Lean strings (logically lists of characters), maps
keyed by question id by functions into Option, and JavaScript truthiness of
optional strings is made explicit.
-/

namespace JVLMS

/-- Whitespace test used by the model of JavaScript String.prototype.trim. -/
def isWS (c : Char) : Bool := c.isWhitespace

/-- Model of JavaScript String.prototype.trim on the character list:
drop leading whitespace, then trailing whitespace. -/
def jsTrimList (cs : List Char) : List Char :=
  ((cs.dropWhile isWS).reverse.dropWhile isWS).reverse

/-- Model of JavaScript String.prototype.trim. -/
def jsTrim (s : String) : String := String.mk (jsTrimList s.data)

/-- Helper for jsSplit: the accumulator holds the current field reversed. -/
def jsSplitAux (sep : Char) : List Char → List Char → List String
  | [], acc => [String.mk acc.reverse]
  | c :: cs, acc =>
    if c = sep then String.mk acc.reverse :: jsSplitAux sep cs []
    else jsSplitAux sep cs (c :: acc)

/-- Model of JavaScript String.prototype.split with a one-character separator.
As in JavaScript, splitting the empty string yields [""]. -/
def jsSplit (sep : Char) (s : String) : List String := jsSplitAux sep s.data []

/-- Model of JavaScript String.prototype.toLowerCase (the code only lowers
ASCII answer text). -/
def jsToLower (s : String) : String := String.mk (s.data.map Char.toLower)

/-- Model of JavaScript Array.prototype.join. -/
def jsJoin (sep : String) : List String → String
  | [] => ""
  | [x] => x
  | x :: y :: r => x ++ sep ++ jsJoin sep (y :: r)

/-- Code-unit lexicographic comparison on character lists: the default
comparator of JavaScript Array.prototype.sort on strings. -/
def jsLtChars : List Char → List Char → Bool
  | [], [] => false
  | [], _ :: _ => true
  | _ :: _, [] => false
  | a :: as, b :: bs => if a < b then true else if b < a then false else jsLtChars as bs

/-- Non-strict lexicographic string comparison derived from jsLtChars. -/
def jsLeStr (a b : String) : Bool := !(jsLtChars b.data a.data)

/-- The order relation used to model the default string sort. -/
def jsLeRel (a b : String) : Prop := jsLeStr a b = true

instance : DecidableRel jsLeRel := fun a b => Bool.decEq _ _

/-- Model of JavaScript Array.prototype.sort() on string arrays: the default
lexicographic comparator; the sort is stable, so any stable sorting algorithm
is a faithful model. -/
def jsSortStrings (l : List String) : List String := List.insertionSort jsLeRel l

/-- Model of JavaScript Math.round (round half toward positive infinity). -/
def jsRound (q : ℚ) : ℤ := ⌊q + 1/2⌋

/-- JavaScript truthiness of an optional string: undefined/null and "" are
falsy. -/
def strTruthy : Option String → Bool
  | none => false
  | some s => s != ""

/-- JavaScript a || b on optional strings. -/
def jsOrStr (a b : Option String) : Option String := if strTruthy a then a else b

/-- JavaScript (n || 1) on an optional number: undefined and 0 are falsy. -/
def jsOrOneNat : Option Nat → Nat
  | none => 1
  | some n => if n = 0 then 1 else n

/-! ## Data model (types module) -/

/-- enum AssignmentType. -/
inductive AssignmentType where
  | READING
  | LISTENING
  | WRITING
  | SPEAKING
deriving DecidableEq

/-- interface Question (the fields the grading/authoring core reads).
The type field keeps the source's string discriminant. -/
structure Question where
  id : String
  text : String := ""
  type : String
  options : Option (List String) := none
  correctAnswer : Option String := none
  maxSelection : Option Nat := none
deriving DecidableEq

/-- interface QuestionGroup. -/
structure QuestionGroup where
  id : String
  type : String
  title : Option String := none
  instruction : String := ""
  content : Option String := none
  headingList : Option (List String) := none
  matchOptions : Option (List String) := none
  questions : List Question := []
deriving DecidableEq

/-- interface Assignment (the fields the core reads). -/
structure Assignment where
  id : String
  classId : String
  groupId : Option String := none
  title : String
  type : AssignmentType
  description : String := ""
  dueDate : String
  timeLimit : Option Nat := none
  passageContent : Option String := none
  questionGroups : Option (List QuestionGroup) := none
  videoUrl : Option String := none
  writingTaskType : Option String := none
  writingPrompt : Option String := none
  writingImage : Option String := none
  questions : Option (List Question) := none
deriving DecidableEq

/-- interface QuestionResult: the per-question grading outcome. -/
structure QuestionResult where
  questionId : String
  isCorrect : Bool
  studentAnswer : String
  correctAnswer : String
deriving DecidableEq

/-- interface Submission (the fields analytics and grading read).
The answers record and the report are modelled as maps into Option. -/
structure Submission where
  id : String
  assignmentId : String
  studentId : String
  studentName : String := ""
  answers : String → Option String
  status : String
  grade : Option String := none
  report : Option (String → Option QuestionResult) := none

/-! ## Auto-grading engine (handleSubmit in StudentPortal.tsx) -/

/-- The multi-select MCQ normal form used by handleSubmit:
split on commas, trim each element, sort, rejoin. -/
def sortJoin (s : String) : String :=
  jsJoin "," (jsSortStrings ((jsSplit ',' s).map jsTrim))

/-- The per-question comparison of handleSubmit: trim the raw student answer
and the stored correctAnswer (both defaulted to "" when absent), then
dispatch on the question type string. -/
def isCorrectFor (q : Question) (rawAnswer : String) : Bool :=
  let studentAns := jsTrim rawAnswer
  let correctAns := jsTrim (q.correctAnswer.getD "")
  if q.type == "MCQ" && decide (1 < jsOrOneNat q.maxSelection) then
    sortJoin studentAns == sortJoin correctAns
  else if q.type == "FILL_IN_BLANKS" || q.type == "NOTES_COMPLETION" then
    jsToLower studentAns == jsToLower correctAns
  else
    studentAns == correctAns

/-- One iteration of the grading forEach: store the QuestionResult under the
question id (a later question with the same id overwrites, as JavaScript
object assignment does) and bump the correct count when the answer matched. -/
def gradeStep (answers : String → Option String) (acc : (String → Option QuestionResult) × Nat)
    (q : Question) : (String → Option QuestionResult) × Nat :=
  let rawAnswer := (answers q.id).getD ""
  let studentAns := jsTrim rawAnswer
  let correctAns := jsTrim (q.correctAnswer.getD "")
  let ok := isCorrectFor q rawAnswer
  (fun i => if i = q.id then
      some { questionId := q.id, isCorrect := ok, studentAnswer := studentAns, correctAnswer := correctAns }
    else acc.1 i,
   acc.2 + (if ok then 1 else 0))

/-- The grading forEach over the flattened question list: the report map and
the number of correct answers. -/
def gradeAll (qs : List Question) (answers : String → Option String) :
    (String → Option QuestionResult) × Nat :=
  qs.foldl (gradeStep answers) (fun _ => none, 0)

/-- The assignment's flattened question list: the concatenation of all group
question lists in group order, or the legacy top-level list. -/
def flattenQuestions (a : Assignment) : List Question :=
  match a.questionGroups with
  | some gs => gs.flatMap (fun g => g.questions)
  | none => a.questions.getD []

/-- The status/grade/report triple handleSubmit stores on the new submission. -/
structure GradeOutcome where
  status : String
  grade : Option String
  report : Option (String → Option QuestionResult)

/-- The auto-grading portion of handleSubmit: READING and LISTENING
assignments are graded synchronously; WRITING and SPEAKING submissions stay
SUBMITTED with no grade and no report. -/
def autoGrade (a : Assignment) (answers : String → Option String) : GradeOutcome :=
  if a.type = AssignmentType.READING ∨ a.type = AssignmentType.LISTENING then
    let allQuestions := flattenQuestions a
    let res := gradeAll allQuestions answers
    { status := "GRADED",
      grade := some (toString res.2 ++ "/" ++ toString allQuestions.length),
      report := some res.1 }
  else
    { status := "SUBMITTED", grade := none, report := none }

/-! ## Notes-completion compiler (getPreviewAssignment / handleSaveAssignment) -/

/-- The characters the JavaScript regex dot does not match (the pattern has no
s flag), so a bracket pair cannot span a line terminator. -/
def dotExcluded (c : Char) : Bool :=
  c == '\n' || c == '\r' || c == '\u2028' || c == '\u2029'

/-- Left-to-right scan implementing content.matchAll with the lazy pattern of
one bracketed group. Outside a match attempt (state none) an opening bracket
starts one; inside (state some buffer) the first closing bracket emits the
buffered inner text and the scan resumes after it, a line terminator aborts
the attempt (the lazy dot cannot cross it, and no opening bracket strictly
inside the aborted span can match either, because there is no closing bracket
before the terminator), and any other character is buffered. -/
def scanBrackets : List Char → Option (List Char) → List (List Char)
  | [], _ => []
  | c :: rest, none =>
    if c = '[' then scanBrackets rest (some []) else scanBrackets rest none
  | c :: rest, some buf =>
    if c = ']' then buf :: scanBrackets rest none
    else if dotExcluded c then scanBrackets rest none
    else scanBrackets rest (some (buf ++ [c]))

/-- The inner texts of all bracket tokens of the content, in document order. -/
def bracketMatches (content : String) : List String :=
  (scanBrackets content.data none).map String.mk

/-- The question list generated for a NOTES_COMPLETION group: one question per
bracket token, text the literal token including brackets, correctAnswer the
inner text. The id maker abstracts the two id schemes of the source (the
sequential preview ids and the timestamp/random save-time ids). -/
def compileNotes (mkId : Nat → String) (content : String) : List Question :=
  (bracketMatches content).enum.map (fun p =>
    { id := mkId p.1,
      text := "[" ++ p.2 ++ "]",
      type := "NOTES_COMPLETION",
      correctAnswer := some p.2 })

/-- The preview id scheme of getPreviewAssignment. -/
def previewId (i : Nat) : String := "q_prev_" ++ toString i

/-- The per-group processing shared by getPreviewAssignment and
handleSaveAssignment: a NOTES_COMPLETION group with truthy content gets a
freshly generated question list; every other group passes through unchanged. -/
def processGroup (mkId : Nat → String) (g : QuestionGroup) : QuestionGroup :=
  if g.type == "NOTES_COMPLETION" && strTruthy g.content then
    { g with questions := compileNotes mkId (g.content.getD "") }
  else g

/-! ## Assignment builder (TeacherPortal) -/

/-- The QUESTION_TYPE_INSTRUCTIONS record; absent keys yield undefined. -/
def questionTypeInstructions (t : String) : Option String :=
  if t = "MCQ" then some "Choose the correct letter, A, B, C or D."
  else if t = "FILL_IN_BLANKS" then
    some "Complete the sentences below. Write NO MORE THAN TWO WORDS for each answer."
  else if t = "NOTES_COMPLETION" then
    some "Complete the notes below. Write ONE WORD AND/OR A NUMBER from the passage for each answer."
  else if t = "TRUE_FALSE_NG" then
    some "Do the following statements agree with the information given in the Reading Passage? Write TRUE, FALSE or NOT GIVEN."
  else if t = "YES_NO_NG" then
    some "Do the following statements agree with the views of the writer in the Reading Passage? Write YES, NO or NOT GIVEN."
  else if t = "MATCHING_HEADINGS" then
    some "Choose the correct heading for each paragraph from the list of headings below."
  else if t = "MATCHING_FEATURES" then
    some "Look at the following items and the list of options below. Match each item with the correct option."
  else if t = "MATCHING_INFORMATION" then
    some "Which paragraph contains the following information? NB You may use any letter more than once."
  else if t = "MATCHING_SENTENCE_ENDINGS" then
    some "Complete each sentence with the correct ending, A-G, below."
  else none

/-- The in-place edit handleGroupTypeChange applies to the selected group:
set the new type, replace the instruction by the new type's default, and only
when the relevant auxiliary list is currently absent and the new type needs
it, initialize it to the empty list. -/
def applyGroupTypeChange (g : QuestionGroup) (newType : String) : QuestionGroup :=
  let g1 := { g with type := newType,
                     instruction := (questionTypeInstructions newType).getD "" }
  let g2 := if newType == "MATCHING_HEADINGS" && g1.headingList == none then
      { g1 with headingList := some [] }
    else g1
  if (newType == "MATCHING_FEATURES" || newType == "MATCHING_SENTENCE_ENDINGS")
      && g2.matchOptions == none then
    { g2 with matchOptions := some [] }
  else g2

/-- handleGroupTypeChange over the draft group list. -/
def handleGroupTypeChange (groups : List QuestionGroup) (index : Nat) (newType : String) :
    List QuestionGroup :=
  groups.modify (fun g => applyGroupTypeChange g newType) index

/-- toggleMcqCorrectAnswer: add or remove one option letter from the
comma-joined multi-select correct answer (null when nothing is selected). -/
def toggleMcqCorrectAnswer (tempCorrectAnswer : Option String) (letter : String) :
    Option String :=
  let current : List String :=
    match tempCorrectAnswer with
    | none => []
    | some s => if s = "" then [] else jsSplit ',' s
  if letter ∈ current then
    let next := current.filter (fun l => l ≠ letter)
    if next.length ≠ 0 then some (jsJoin "," (jsSortStrings next)) else none
  else some (jsJoin "," (jsSortStrings (current ++ [letter])))

/-- The draft state handleSaveAssignment reads (the Partial assignment form
state; absent and empty fields are both falsy). -/
structure AssignmentDraft where
  title : Option String := none
  dueDate : Option String := none
  classId : Option String := none
  type : AssignmentType
  description : Option String := none
  timeLimit : Option Nat := none
  passageContent : Option String := none
  videoUrl : Option String := none
  writingTaskType : Option String := none
  writingPrompt : Option String := none
  writingImage : Option String := none

/-- handleSaveAssignment: the validation checks and the assembly of the one
assignment entity. none models a validation alert (the function returns early
and nothing is persisted); some gives the entity handed to onAddAssignment or
onUpdateAssignment. -/
def handleSaveAssignment (selectedClassId : Option String) (newAssignment : AssignmentDraft)
    (tempQuestionGroups : List QuestionGroup) (mkId : Nat → String)
    (editingAssignmentId : Option String) (viewingGroupId : Option String)
    (newId : String) : Option Assignment :=
  let classId := jsOrStr selectedClassId newAssignment.classId
  if ¬ strTruthy newAssignment.title ∨ ¬ strTruthy newAssignment.dueDate ∨ ¬ strTruthy classId then
    none
  else if newAssignment.type = AssignmentType.WRITING ∧ ¬ strTruthy newAssignment.writingPrompt then
    none
  else
    let processedQuestionGroups := tempQuestionGroups.map (processGroup mkId)
    let finalWritingTaskType :=
      if newAssignment.type = AssignmentType.WRITING ∧ ¬ strTruthy newAssignment.writingTaskType then
        some "TASK_1"
      else newAssignment.writingTaskType
    some
      { id := (jsOrStr editingAssignmentId (some newId)).getD "",
        classId := classId.getD "",
        groupId := if strTruthy viewingGroupId then viewingGroupId else none,
        title := newAssignment.title.getD "",
        type := newAssignment.type,
        description := newAssignment.description.getD "",
        dueDate := newAssignment.dueDate.getD "",
        timeLimit := newAssignment.timeLimit,
        passageContent := newAssignment.passageContent,
        questionGroups := some processedQuestionGroups,
        videoUrl := newAssignment.videoUrl,
        writingTaskType := finalWritingTaskType,
        writingPrompt := newAssignment.writingPrompt,
        writingImage := newAssignment.writingImage }

/-! ## Analytics aggregation (analyticsData in the Gradebook) -/

/-- The value of one decimal digit character. -/
def digitVal (c : Char) : Option Nat :=
  if '0' ≤ c ∧ c ≤ '9' then some (c.toNat - '0'.toNat) else none

/-- Digits-only accumulation. -/
def parseDigitsAux : List Char → Nat → Option Nat
  | [], acc => some acc
  | c :: cs, acc =>
    match digitVal c with
    | some d => parseDigitsAux cs (acc * 10 + d)
    | none => none

/-- Digits-only parse; none on empty or non-digit input. -/
def parseDigitsNat (cs : List Char) : Option Nat :=
  if cs = [] then none else parseDigitsAux cs 0

/-- Model of JavaScript Number() restricted to optional-sign decimal numerals
with an optional fraction part (every grade string the system produces is of
this shape or malformed); none models NaN. -/
def jsNumber (s : String) : Option ℚ :=
  let t := jsTrimList s.data
  if t = [] then some 0
  else
    let sgn : ℚ := match t with | '-' :: _ => -1 | _ => 1
    let u : List Char := match t with | '-' :: r => r | '+' :: r => r | r => r
    let intPart := u.takeWhile (fun c => c != '.')
    let rest := u.dropWhile (fun c => c != '.')
    match rest with
    | [] => (parseDigitsNat intPart).map (fun n => sgn * n)
    | _ :: frac =>
      if frac = [] then (parseDigitsNat intPart).map (fun n => sgn * n)
      else
        match (if intPart = [] then some 0 else parseDigitsNat intPart), parseDigitsNat frac with
        | some n, some f => some (sgn * ((n : ℚ) + (f : ℚ) / 10 ^ frac.length))
        | _, _ => none

/-- All submissions for the selected assignment. -/
def assignmentSubmissionsFor (assignmentId : String) (submissions : List Submission) :
    List Submission :=
  submissions.filter (fun s => s.assignmentId == assignmentId)

/-- The graded submissions with a (truthy) report for the selected assignment. -/
def gradedSubmissionsFor (assignmentId : String) (submissions : List Submission) :
    List Submission :=
  (assignmentSubmissionsFor assignmentId submissions).filter
    (fun s => s.status == "GRADED" && s.report.isSome)

/-- The percentage the aggregator derives from one submission's grade string:
parse score and max around the slash; a falsy grade, an unparsable part, or a
non-positive max yields 0. -/
def submissionScore (grade : Option String) : ℚ :=
  if strTruthy grade then
    let parts := jsSplit '/' (grade.getD "")
    match parts with
    | p0 :: p1 :: _ =>
      match jsNumber p0, jsNumber p1 with
      | some sc, some mx => if 0 < mx then sc / mx * 100 else 0
      | _, _ => 0
    | _ => 0
  else 0

/-- averageScore: the rounded mean of the graded submissions' percentages,
0 when there are none. -/
def averageScore (assignmentId : String) (submissions : List Submission) : ℤ :=
  let scores := (gradedSubmissionsFor assignmentId submissions).map
    (fun s => submissionScore s.grade)
  if 0 < scores.length then jsRound (scores.sum / scores.length) else 0

/-- completionRate: all submissions received over the roster size, as a
rounded percentage; 0 when the roster is empty. -/
def completionRate (assignmentId : String) (submissions : List Submission)
    (students : List String) : ℤ :=
  if 0 < students.length then
    jsRound (((assignmentSubmissionsFor assignmentId submissions).length : ℚ)
      / (students.length : ℚ) * 100)
  else 0

/-- One row of the per-question statistics table. -/
structure QuestionStat where
  question : Question
  accuracy : ℤ
  correctCount : Nat
  attemptCount : Nat
deriving DecidableEq

/-- Whether a graded submission attempted the question: its report has an
entry under the question id. -/
def attempted (q : Question) (s : Submission) : Bool :=
  match s.report with
  | some r => (r q.id).isSome
  | none => false

/-- Whether a graded submission attempted the question and got it right. -/
def answeredCorrectly (q : Question) (s : Submission) : Bool :=
  match s.report with
  | some r =>
    match r q.id with
    | some res => res.isCorrect
    | none => false
  | none => false

/-- The per-question counters and accuracy over the graded submissions:
attempts are submissions whose report mentions the question, and the accuracy
is the rounded percentage of correct among attempts (0 with no attempts). -/
def statFor (gradedSubmissions : List Submission) (q : Question) : QuestionStat :=
  let attemptCount := gradedSubmissions.countP (attempted q)
  let correctCount := gradedSubmissions.countP (answeredCorrectly q)
  { question := q,
    accuracy := if 0 < attemptCount then
        jsRound ((correctCount : ℚ) / (attemptCount : ℚ) * 100)
      else 0,
    correctCount := correctCount,
    attemptCount := attemptCount }

/-- The ascending-accuracy order of the stats table. -/
def statLe (x y : QuestionStat) : Prop := x.accuracy ≤ y.accuracy

instance : DecidableRel statLe := fun x y => Int.decLe _ _

/-- questionStats: per-question statistics over the graded submissions,
sorted ascending by accuracy (hardest first). -/
def questionStats (a : Assignment) (submissions : List Submission) : List QuestionStat :=
  List.insertionSort statLe
    ((flattenQuestions a).map (statFor (gradedSubmissionsFor a.id submissions)))

/-! ## Basic lemmas about the string primitives -/

theorem dropWhile_dropWhile (p : Char → Bool) (l : List Char) :
    (l.dropWhile p).dropWhile p = l.dropWhile p := by
  induction l with
  | nil => rfl
  | cons a l ih =>
    by_cases h : p a
    · simp [List.dropWhile_cons, h, ih]
    · simp [List.dropWhile_cons, h]

theorem dropWhile_eq_self_of_cons {p : Char → Bool} {h : Char} {t : List Char}
    (hx : (h :: t).dropWhile p = h :: t) : p h = false := by
  by_cases hp : p h
  · exfalso
    rw [List.dropWhile_cons, if_pos hp] at hx
    have hlen : (t.dropWhile p).length ≤ t.length :=
      (List.dropWhile_sublist p).length_le
    rw [hx] at hlen
    simp at hlen
  · simpa using hp

theorem dropWhile_trimFront {p : Char → Bool} {x : List Char}
    (hx : x.dropWhile p = x) :
    ((x.reverse.dropWhile p).reverse).dropWhile p = (x.reverse.dropWhile p).reverse := by
  have hpre : (x.reverse.dropWhile p).reverse <+: x := by
    have hs : x.reverse.dropWhile p <:+ x.reverse := List.dropWhile_suffix p
    have := List.reverse_prefix.mpr hs
    simpa using this
  rcases hpre with ⟨u, hu⟩
  rcases hy : (x.reverse.dropWhile p).reverse with _ | ⟨h, t⟩
  · simp
  · rw [hy] at hu
    have hxeq : x = h :: (t ++ u) := by
      rw [← hu]; rfl
    have hph : p h = false := by
      apply dropWhile_eq_self_of_cons (t := t ++ u)
      rw [← hxeq]; exact hx
    rw [List.dropWhile_cons, hph]
    simp

theorem jsTrimList_idem (cs : List Char) : jsTrimList (jsTrimList cs) = jsTrimList cs := by
  unfold jsTrimList
  set x := cs.dropWhile isWS with hxdef
  have hx : x.dropWhile isWS = x := dropWhile_dropWhile isWS cs
  set r := (x.reverse.dropWhile isWS).reverse with hrdef
  have h1 : r.dropWhile isWS = r := dropWhile_trimFront hx
  rw [h1]
  have h2 : r.reverse = x.reverse.dropWhile isWS := by rw [hrdef]; simp
  rw [h2, dropWhile_dropWhile, ← h2]
  simp

theorem jsTrim_idem (s : String) : jsTrim (jsTrim s) = jsTrim s := by
  unfold jsTrim
  rw [String.ext_iff]
  simpa using jsTrimList_idem s.data

theorem jsSplitAux_ne_nil (sep : Char) (cs acc : List Char) :
    jsSplitAux sep cs acc ≠ [] := by
  induction cs generalizing acc with
  | nil => simp [jsSplitAux]
  | cons c cs ih =>
    by_cases h : c = sep
    · simp [jsSplitAux, h]
    · simpa [jsSplitAux, h] using ih (c :: acc)

theorem jsSplitAux_no_sep (sep : Char) (cs acc : List Char)
    (h : ∀ c ∈ cs, c ≠ sep) :
    jsSplitAux sep cs acc = [String.mk (acc.reverse ++ cs)] := by
  induction cs generalizing acc with
  | nil => simp [jsSplitAux]
  | cons c cs ih =>
    have hc : c ≠ sep := h c (by simp)
    rw [jsSplitAux, if_neg hc, ih (c :: acc) (fun d hd => h d (by simp [hd]))]
    simp

theorem jsSplit_no_sep (sep : Char) (s : String) (h : ∀ c ∈ s.data, c ≠ sep) :
    jsSplit sep s = [s] := by
  rw [jsSplit, jsSplitAux_no_sep sep s.data [] h]
  simp

theorem jsSplitAux_singleton (sep : Char) (cs : List Char) :
    ∀ acc y, jsSplitAux sep cs acc = [y] →
      y = String.mk (acc.reverse ++ cs) ∧ ∀ c ∈ cs, c ≠ sep := by
  induction cs with
  | nil =>
    intro acc y hy
    simp [jsSplitAux] at hy
    simp [hy]
  | cons c cs ih =>
    intro acc y hy
    by_cases h : c = sep
    · rw [jsSplitAux, if_pos h] at hy
      cases htail : jsSplitAux sep cs [] with
      | nil => exact absurd htail (jsSplitAux_ne_nil sep cs [])
      | cons z zs => simp [htail] at hy
    · rw [jsSplitAux, if_neg h] at hy
      obtain ⟨hy1, hy2⟩ := ih (c :: acc) y hy
      refine ⟨by simpa using hy1, ?_⟩
      intro d hd
      rcases List.mem_cons.mp hd with hd | hd
      · simpa [hd] using h
      · exact hy2 d hd

theorem jsSplitAux_append_sep (sep : Char) (pre : List Char) :
    ∀ acc rest, (∀ c ∈ pre, c ≠ sep) →
      jsSplitAux sep (pre ++ sep :: rest) acc =
        String.mk (acc.reverse ++ pre) :: jsSplitAux sep rest [] := by
  induction pre with
  | nil =>
    intro acc rest _
    simp [jsSplitAux]
  | cons c pre ih =>
    intro acc rest h
    have hc : c ≠ sep := h c (by simp)
    rw [List.cons_append, jsSplitAux, if_neg hc,
      ih (c :: acc) rest (fun d hd => h d (by simp [hd]))]
    simp

theorem data_ne_nil_iff (s : String) : s.data ≠ [] ↔ s ≠ "" := by
  constructor
  · intro h hs
    rw [hs] at h
    exact h rfl
  · intro h hd
    exact h (String.ext hd)

theorem jsJoin_cons_ne_empty (x : String) (t : List String) (hx : x ≠ "") :
    jsJoin "," (x :: t) ≠ "" := by
  cases t with
  | nil => simpa [jsJoin] using hx
  | cons y r =>
    rw [jsJoin, ← data_ne_nil_iff]
    rw [String.data_append, String.data_append]
    intro h
    rcases List.append_eq_nil.mp (List.append_eq_nil.mp h).1 with ⟨h1, _⟩
    exact (data_ne_nil_iff x).mpr hx h1

theorem jsJoin_comma_eq_empty (l : List String) (h : jsJoin "," l = "") :
    l = [] ∨ l = [""] := by
  cases l with
  | nil => exact Or.inl rfl
  | cons x t =>
    cases t with
    | nil => exact Or.inr (by simpa [jsJoin] using h)
    | cons y r =>
      exfalso
      rw [jsJoin, String.ext_iff, String.data_append, String.data_append] at h
      simp at h

theorem jsSplit_join (l : List String) (hne : l ≠ [])
    (hcf : ∀ x ∈ l, ∀ c ∈ x.data, c ≠ ',') :
    jsSplit ',' (jsJoin "," l) = l := by
  induction l with
  | nil => exact absurd rfl hne
  | cons x t ih =>
    cases t with
    | nil =>
      rw [jsJoin]
      exact jsSplit_no_sep ',' x (hcf x (by simp))
    | cons y r =>
      rw [jsJoin, jsSplit]
      have hdata : (x ++ "," ++ jsJoin "," (y :: r)).data =
          x.data ++ ',' :: (jsJoin "," (y :: r)).data := by
        rw [String.data_append, String.data_append, List.append_assoc]
        rfl
      rw [hdata, jsSplitAux_append_sep ',' x.data [] _ (hcf x (by simp))]
      have hx : String.mk ([].reverse ++ x.data) = x := by
        rw [String.ext_iff]; simp
      rw [hx]
      have := ih (by simp) (fun z hz => hcf z (by simp [hz]))
      rw [jsSplit] at this
      rw [this]

/-! ## The string comparator is a linear order -/

theorem jsLtChars_irrefl (l : List Char) : jsLtChars l l = false := by
  induction l with
  | nil => rfl
  | cons a l ih => simp [jsLtChars, ih]

theorem jsLtChars_trans : ∀ {a b c : List Char},
    jsLtChars a b = true → jsLtChars b c = true → jsLtChars a c = true := by
  intro a
  induction a with
  | nil =>
    intro b c hab hbc
    cases b with
    | nil => exact absurd hab (by simp [jsLtChars])
    | cons y bs =>
      cases c with
      | nil => exact absurd hbc (by simp [jsLtChars])
      | cons z cs => simp [jsLtChars]
  | cons x as ih =>
    intro b c hab hbc
    cases b with
    | nil => exact absurd hab (by simp [jsLtChars])
    | cons y bs =>
      cases c with
      | nil => exact absurd hbc (by simp [jsLtChars])
      | cons z cs =>
        rw [jsLtChars] at hab hbc ⊢
        by_cases hxy : x < y
        · by_cases hyz : y < z
          · rw [if_pos (lt_trans hxy hyz)]
          · rw [if_neg hyz] at hbc
            by_cases hzy : z < y
            · simp [hzy] at hbc
            · have hyzeq : y = z := le_antisymm (not_lt.mp hzy) (not_lt.mp hyz)
              rw [if_pos (hyzeq ▸ hxy)]
        · rw [if_neg hxy] at hab
          by_cases hyx : y < x
          · simp [hyx] at hab
          · have hxyeq : x = y := le_antisymm (not_lt.mp hyx) (not_lt.mp hxy)
            by_cases hyz : y < z
            · rw [if_pos (hxyeq ▸ hyz)]
            · rw [if_neg hyz] at hbc
              by_cases hzy : z < y
              · simp [hzy] at hbc
              · rw [if_neg hyx] at hab
                rw [if_neg hzy] at hbc
                rw [hxyeq]
                rw [if_neg hyz, if_neg hzy]
                exact ih hab hbc

theorem jsLtChars_connex : ∀ {a b : List Char},
    jsLtChars a b = false → jsLtChars b a = false → a = b := by
  intro a
  induction a with
  | nil =>
    intro b hab _
    cases b with
    | nil => rfl
    | cons y bs => exact absurd hab (by simp [jsLtChars])
  | cons x as ih =>
    intro b hab hba
    cases b with
    | nil => exact absurd hba (by simp [jsLtChars])
    | cons y bs =>
      rw [jsLtChars] at hab hba
      by_cases hxy : x < y
      · simp [hxy] at hab
      · by_cases hyx : y < x
        · simp [hyx, hxy] at hba
        · have hxyeq : x = y := le_antisymm (not_lt.mp hyx) (not_lt.mp hxy)
          rw [if_neg hxy, if_neg hyx] at hab
          rw [if_neg hyx, if_neg (hxyeq ▸ hxy)] at hba
          rw [hxyeq, ih hab hba]

theorem jsLtChars_asymm {a b : List Char} (h : jsLtChars a b = true) :
    jsLtChars b a = false := by
  by_contra hh
  rw [Bool.not_eq_false] at hh
  have htrans := jsLtChars_trans h hh
  rw [jsLtChars_irrefl] at htrans
  simp at htrans

instance : IsTrans String jsLeRel := by
  refine ⟨fun a b c hab hbc => ?_⟩
  unfold jsLeRel jsLeStr at hab hbc ⊢
  rw [Bool.not_eq_true'] at hab hbc ⊢
  by_cases hablt : jsLtChars a.data b.data = true
  · by_contra hca
    rw [Bool.not_eq_false] at hca
    have hcb := jsLtChars_trans hca hablt
    have hfalse : (false : Bool) = true := hbc ▸ hcb
    simp at hfalse
  · have h1 : jsLtChars a.data b.data = false := by simpa using hablt
    have heq : b.data = a.data := jsLtChars_connex hab h1
    rw [← heq]
    exact hbc

instance : IsTotal String jsLeRel := by
  refine ⟨fun a b => ?_⟩
  unfold jsLeRel jsLeStr
  rw [Bool.not_eq_true', Bool.not_eq_true']
  by_cases h : jsLtChars b.data a.data = true
  · exact Or.inr (jsLtChars_asymm h)
  · exact Or.inl (by simpa using h)

instance : IsAntisymm String jsLeRel := by
  refine ⟨fun a b hab hba => ?_⟩
  unfold jsLeRel jsLeStr at hab hba
  rw [Bool.not_eq_true'] at hab hba
  exact String.ext (jsLtChars_connex hba hab)

theorem jsSortStrings_sorted (l : List String) :
    List.Sorted jsLeRel (jsSortStrings l) :=
  List.sorted_insertionSort jsLeRel l

theorem jsSortStrings_perm (l : List String) : (jsSortStrings l).Perm l :=
  List.perm_insertionSort jsLeRel l

theorem jsSortStrings_of_sorted {l : List String} (h : List.Sorted jsLeRel l) :
    jsSortStrings l = l :=
  List.Sorted.insertionSort_eq h

/-! ## C2: the notes-completion compiler -/

theorem scanBrackets_no_open {cs : List Char} (h : ∀ c ∈ cs, c ≠ '[') :
    scanBrackets cs none = [] := by
  induction cs with
  | nil => rfl
  | cons c rest ih =>
    rw [scanBrackets, if_neg (h c (by simp))]
    exact ih (fun d hd => h d (by simp [hd]))

/-- C2: the compiler yields exactly one question per bracket token in document
order (the list is the image of the match list); each question's text is the
literal token including brackets, its correctAnswer the inner text, its type
NOTES_COMPLETION; the output is independent of the id scheme, so preview-time
and save-time compilation (and any two runs on the same content) agree on
count, order and correctAnswer values; bracket-free content compiles to the
empty list; and the spec's concrete scenario evaluates as stated. -/
theorem notes_compiler_contract :
    (∀ mkA mkB content,
      (compileNotes mkA content).map (fun q => (q.text, q.type, q.correctAnswer)) =
        (compileNotes mkB content).map (fun q => (q.text, q.type, q.correctAnswer))) ∧
    (∀ mk content,
      (compileNotes mk content).length = (bracketMatches content).length ∧
      (compileNotes mk content).map (fun q => q.correctAnswer) =
        (bracketMatches content).map some) ∧
    (∀ mk content q, q ∈ compileNotes mk content →
      q.type = "NOTES_COMPLETION" ∧
      ∃ inner, q.correctAnswer = some inner ∧ q.text = "[" ++ inner ++ "]") ∧
    (∀ mk content, (∀ c ∈ content.data, c ≠ '[') → compileNotes mk content = []) ∧
    (compileNotes previewId "The [sun] rises in the [east].").map
        (fun q => (q.text, q.correctAnswer)) =
      [("[sun]", some "sun"), ("[east]", some "east")] := by
  refine ⟨?_, ?_, ?_, ?_, ?_⟩
  · intro mkA mkB content
    simp [compileNotes, List.map_map]
  · intro mk content
    refine ⟨by simp [compileNotes], ?_⟩
    rw [compileNotes, List.map_map]
    have h1 : ((fun q : Question => q.correctAnswer) ∘ fun p : Nat × String =>
        ({ id := mk p.1, text := "[" ++ p.2 ++ "]", type := "NOTES_COMPLETION",
           correctAnswer := some p.2 } : Question)) = fun p => some p.2 := rfl
    rw [h1]
    have h2 : (fun p : Nat × String => some p.2) =
        ((some : String → Option String) ∘ Prod.snd) := rfl
    rw [h2, ← List.map_map, List.enum_map_snd]
  · intro mk content q hq
    simp [compileNotes] at hq
    obtain ⟨i, inner, _, hq⟩ := hq
    refine ⟨?_, inner, ?_, ?_⟩ <;> simp [← hq]
  · intro mk content h
    simp [compileNotes, bracketMatches, scanBrackets_no_open h]
  · decide

/-- Witness for C2: the bracket-free hypothesis discharged on concrete content. -/
theorem notes_compiler_contract_witness :
    compileNotes previewId "plain text without tokens" = [] :=
  notes_compiler_contract.2.2.2.1 previewId "plain text without tokens" (by decide)

/-! ## C3: grading outcome shape per assignment type -/

/-- The number of correct answers among a question list, as counted by the
grading fold. -/
def countCorrect (qs : List Question) (answers : String → Option String) : Nat :=
  qs.countP (fun q => isCorrectFor q ((answers q.id).getD ""))

theorem gradeAll_foldl_snd (answers : String → Option String) (qs : List Question) :
    ∀ acc, (qs.foldl (gradeStep answers) acc).2 = acc.2 + countCorrect qs answers := by
  induction qs with
  | nil => intro acc; simp [countCorrect]
  | cons q qs ih =>
    intro acc
    rw [List.foldl_cons, ih]
    simp only [countCorrect, List.countP_cons, gradeStep]
    omega

theorem gradeAll_snd (qs : List Question) (answers : String → Option String) :
    (gradeAll qs answers).2 = countCorrect qs answers := by
  rw [gradeAll, gradeAll_foldl_snd]
  simp

/-- C3: a READING or LISTENING submission is GRADED with grade
"(correct)/(total)" whose denominator is the flattened question count,
whatever the answers map holds; a WRITING or SPEAKING submission stays
SUBMITTED with no grade and no report. -/
theorem autoGrade_contract (a : Assignment) (answers : String → Option String) :
    ((a.type = AssignmentType.READING ∨ a.type = AssignmentType.LISTENING) →
      (autoGrade a answers).status = "GRADED" ∧
      (autoGrade a answers).grade =
        some (toString (countCorrect (flattenQuestions a) answers) ++ "/" ++
          toString (flattenQuestions a).length) ∧
      (autoGrade a answers).report.isSome) ∧
    ((a.type = AssignmentType.WRITING ∨ a.type = AssignmentType.SPEAKING) →
      (autoGrade a answers).status = "SUBMITTED" ∧
      (autoGrade a answers).grade = none ∧
      (autoGrade a answers).report = none) := by
  constructor
  · intro h
    rw [autoGrade, if_pos h]
    refine ⟨rfl, ?_, rfl⟩
    simp [gradeAll_snd]
  · intro h
    have hnot : ¬ (a.type = AssignmentType.READING ∨ a.type = AssignmentType.LISTENING) := by
      rcases h with h | h <;> rw [h] <;> simp
    rw [autoGrade, if_neg hnot]
    exact ⟨rfl, rfl, rfl⟩

/-- A concrete one-question READING assignment used by witnesses. -/
def sampleReadingAssignment : Assignment :=
  { id := "a1"
    classId := "c1"
    title := "t"
    type := AssignmentType.READING
    dueDate := "d"
    questionGroups := some
      [{ id := "g1"
         type := "MCQ"
         questions := [{ id := "q1", type := "MCQ", correctAnswer := some "A" }] }] }

/-- A concrete WRITING assignment used by witnesses. -/
def sampleWritingAssignment : Assignment :=
  { id := "a2"
    classId := "c1"
    title := "t"
    type := AssignmentType.WRITING
    dueDate := "d" }

/-- Witness for C3: both branches discharged on concrete assignments. -/
theorem autoGrade_contract_witness :
    (autoGrade sampleReadingAssignment (fun _ => none)).grade = some "0/1" ∧
    (autoGrade sampleWritingAssignment (fun _ => none)).status = "SUBMITTED" := by
  constructor
  · have h := (autoGrade_contract sampleReadingAssignment (fun _ => none)).1 (Or.inl rfl)
    rw [h.2.1]
    decide
  · exact ((autoGrade_contract sampleWritingAssignment (fun _ => none)).2 (Or.inl rfl)).1

/-! ## C4: totality of grading and the empty-string defaults -/

theorem foldl_report_preserve (answers : String → Option String) (qs : List Question) :
    ∀ acc key, (acc.1 key).isSome = true →
      ((qs.foldl (gradeStep answers) acc).1 key).isSome = true := by
  induction qs with
  | nil => intro acc key h; exact h
  | cons q qs ih =>
    intro acc key h
    rw [List.foldl_cons]
    apply ih
    show ((fun i => if i = q.id then _ else acc.1 i) key).isSome = true
    by_cases hk : key = q.id
    · simp [hk]
    · simpa [hk] using h

theorem foldl_report_mem (answers : String → Option String) (qs : List Question) :
    ∀ acc, ∀ q ∈ qs, ((qs.foldl (gradeStep answers) acc).1 q.id).isSome = true := by
  induction qs with
  | nil => intro acc q hq; exact absurd hq (by simp)
  | cons p qs ih =>
    intro acc q hq
    rw [List.foldl_cons]
    rcases List.mem_cons.mp hq with hq | hq
    · apply foldl_report_preserve
      show ((fun i => if i = p.id then _ else acc.1 i) q.id).isSome = true
      simp [hq]
    · exact ih _ q hq

theorem sortJoin_eq_empty {s : String} (hs : jsTrim s = s) (h : sortJoin s = "") :
    s = "" := by
  rw [sortJoin] at h
  rcases jsJoin_comma_eq_empty _ h with hnil | hone
  · exfalso
    have hperm := jsSortStrings_perm ((jsSplit ',' s).map jsTrim)
    rw [hnil] at hperm
    have := hperm.symm.length_eq
    simp at this
    exact jsSplitAux_ne_nil ',' s.data [] this
  · have hperm := jsSortStrings_perm ((jsSplit ',' s).map jsTrim)
    rw [hone] at hperm
    have hsingle : (jsSplit ',' s).map jsTrim = [""] :=
      List.perm_singleton.mp hperm.symm
    have hlen : (jsSplit ',' s).length = 1 := by
      have := congrArg List.length hsingle
      simpa using this
    obtain ⟨y, hy⟩ := List.length_eq_one.mp hlen
    obtain ⟨hy1, _⟩ := jsSplitAux_singleton ',' s.data [] y hy
    have hys : y = s := by
      rw [hy1, String.ext_iff]
      simp
    rw [hy] at hsingle
    simp [hys] at hsingle
    rw [← hs, hsingle]

theorem isCorrectFor_empty_implies (q : Question) (h : isCorrectFor q "" = true) :
    jsTrim (q.correctAnswer.getD "") = "" := by
  rw [isCorrectFor] at h
  split at h
  · have heq : sortJoin (jsTrim "") = sortJoin (jsTrim (q.correctAnswer.getD "")) :=
      beq_iff_eq.mp h
    have hzero : sortJoin (jsTrim (q.correctAnswer.getD "")) = "" := by
      rw [← heq]; decide
    exact sortJoin_eq_empty (jsTrim_idem _) hzero
  · split at h
    · have heq : jsToLower (jsTrim "") = jsToLower (jsTrim (q.correctAnswer.getD "")) :=
        beq_iff_eq.mp h
      have hz : jsToLower (jsTrim "") = "" := by decide
      rw [hz] at heq
      rw [jsToLower, String.ext_iff] at heq
      simp at heq
      exact String.ext heq
    · have heq : jsTrim "" = jsTrim (q.correctAnswer.getD "") := beq_iff_eq.mp h
      have hz : jsTrim "" = "" := by decide
      rw [hz] at heq
      exact heq.symm

/-- C4: grading is total and defaults to empty strings: every question of the
graded list gets a report entry; a missing correctAnswer is compared exactly
like an empty one; a question absent from the answers map is compared as the
empty string; and an empty student answer is correct only when the trimmed
correctAnswer is itself empty. -/
theorem grading_totality (qs : List Question) (answers : String → Option String) :
    (∀ q ∈ qs, ((gradeAll qs answers).1 q.id).isSome = true) ∧
    (∀ (q : Question) (raw : String), q.correctAnswer = none →
      isCorrectFor q raw = isCorrectFor { q with correctAnswer := some "" } raw) ∧
    (∀ q : Question, answers q.id = none →
      isCorrectFor q ((answers q.id).getD "") = isCorrectFor q "") ∧
    (∀ q : Question, isCorrectFor q "" = true → jsTrim (q.correctAnswer.getD "") = "") := by
  refine ⟨?_, ?_, ?_, ?_⟩
  · intro q hq
    exact foldl_report_mem answers qs _ q hq
  · intro q raw hq
    simp [isCorrectFor, hq]
  · intro q hq
    rw [hq]
    rfl
  · exact isCorrectFor_empty_implies

/-- A concrete unanswered MCQ question used by witnesses. -/
def sampleQuestion : Question := { id := "q1", type := "MCQ", correctAnswer := some "A" }

/-- Witness for C4: the report-entry hypothesis discharged at a concrete
question list. -/
theorem grading_totality_witness :
    ((gradeAll [sampleQuestion] (fun _ => none)).1 sampleQuestion.id).isSome = true :=
  (grading_totality [sampleQuestion] (fun _ => none)).1 sampleQuestion (by simp)

/-! ## C1: the per-type comparison rules -/

/-- A concrete multi-select MCQ question (correct answer "A,D", two picks). -/
def mcqMultiQuestion : Question :=
  { id := "m1", type := "MCQ", correctAnswer := some "A,D", maxSelection := some 2 }

/-- A concrete TRUE_FALSE_NG question with correct answer "NOT GIVEN". -/
def tfngQuestion : Question :=
  { id := "t1", type := "TRUE_FALSE_NG", correctAnswer := some "NOT GIVEN" }

/-- C1: after trimming both sides, a multi-select MCQ (maxSelection > 1, where
an absent or zero maxSelection counts as 1) compares the sorted trimmed comma
lists; FILL_IN_BLANKS and NOTES_COMPLETION compare case-insensitively; every
other type compares exactly (case-sensitively). Concretely, "D,A" matches the
key "A,D" for a two-pick MCQ, and "not given" does not match the TRUE_FALSE_NG
key "NOT GIVEN". -/
theorem comparison_per_type (q : Question) (raw : String) :
    ((q.type = "MCQ" ∧ 1 < jsOrOneNat q.maxSelection) →
      isCorrectFor q raw =
        (sortJoin (jsTrim raw) == sortJoin (jsTrim (q.correctAnswer.getD "")))) ∧
    (∀ n : Nat, 1 < jsOrOneNat (some n) ↔ 1 < n) ∧
    (1 < jsOrOneNat none ↔ False) ∧
    ((q.type = "FILL_IN_BLANKS" ∨ q.type = "NOTES_COMPLETION") →
      isCorrectFor q raw =
        (jsToLower (jsTrim raw) == jsToLower (jsTrim (q.correctAnswer.getD "")))) ∧
    ((¬(q.type = "MCQ" ∧ 1 < jsOrOneNat q.maxSelection) ∧
        q.type ≠ "FILL_IN_BLANKS" ∧ q.type ≠ "NOTES_COMPLETION") →
      isCorrectFor q raw = (jsTrim raw == jsTrim (q.correctAnswer.getD ""))) ∧
    isCorrectFor mcqMultiQuestion "D,A" = true ∧
    isCorrectFor tfngQuestion "not given" = false := by
  refine ⟨?_, ?_, ?_, ?_, ?_, by decide, by decide⟩
  · rintro ⟨h1, h2⟩
    simp [isCorrectFor, h1, h2]
  · intro n
    rcases Nat.eq_zero_or_pos n with h | h
    · simp [jsOrOneNat, h]
    · simp [jsOrOneNat, Nat.pos_iff_ne_zero.mp h]
  · simp [jsOrOneNat]
  · intro h
    rcases h with h | h <;> simp [isCorrectFor, h]
  · rintro ⟨h1, h2, h3⟩
    simp only [isCorrectFor]
    have c1 : (q.type == "MCQ" && decide (1 < jsOrOneNat q.maxSelection)) = false := by
      by_cases hm : q.type = "MCQ"
      · have hnot : ¬ 1 < jsOrOneNat q.maxSelection := fun hh => h1 ⟨hm, hh⟩
        simp [hnot]
      · simp [hm]
    have c2 : (q.type == "FILL_IN_BLANKS" || q.type == "NOTES_COMPLETION") = false := by
      simp [h2, h3]
    simp [c1, c2]

/-- Witness for C1: the exact-match branch discharged at the concrete
TRUE_FALSE_NG question. -/
theorem comparison_per_type_witness :
    isCorrectFor tfngQuestion "TRUE" = (jsTrim "TRUE" == jsTrim "NOT GIVEN") :=
  (comparison_per_type tfngQuestion "TRUE").2.2.2.2.1
    ⟨by decide, by decide, by decide⟩

/-! ## C5: notes groups at save time -/

/-- A NOTES_COMPLETION group whose content is the empty string but which still
carries a previously stored question. -/
def staleNotesGroup : QuestionGroup :=
  { id := "g5"
    type := "NOTES_COMPLETION"
    content := some ""
    questions := [{ id := "old1", type := "NOTES_COMPLETION", correctAnswer := some "stale" }] }

/-- Counterexample to C5 as stated: a NOTES_COMPLETION group with empty
content keeps its previously stored question at save time instead of being
replaced by the (empty) fresh compiler output over its content. -/
theorem processGroup_keeps_stale_on_empty_content :
    (processGroup previewId staleNotesGroup).questions =
      [{ id := "old1", type := "NOTES_COMPLETION", correctAnswer := some "stale" }] ∧
    compileNotes previewId (staleNotesGroup.content.getD "") = [] ∧
    (processGroup previewId staleNotesGroup).questions ≠
      compileNotes previewId (staleNotesGroup.content.getD "") := by
  refine ⟨by decide, by decide, by decide⟩

/-- C5 amended: at save time every NOTES_COMPLETION group whose content is
truthy (present and non-empty) has its question list replaced by the fresh
compiler output over that content; a NOTES_COMPLETION group with absent or
empty content passes through unchanged, keeping its stored questions; and
handleSaveAssignment applies this processing to every group of the draft. -/
theorem processGroup_contract (mkId : Nat → String) (g : QuestionGroup) :
    (g.type = "NOTES_COMPLETION" → strTruthy g.content = true →
      (processGroup mkId g).questions = compileNotes mkId (g.content.getD "")) ∧
    (strTruthy g.content = false → processGroup mkId g = g) ∧
    (∀ selectedClassId draft groups eid vid nid a,
      handleSaveAssignment selectedClassId draft groups mkId eid vid nid = some a →
      a.questionGroups = some (groups.map (processGroup mkId))) := by
  refine ⟨?_, ?_, ?_⟩
  · intro h1 h2
    simp [processGroup, h1, h2]
  · intro h1
    rw [processGroup]
    have hcond : (g.type == "NOTES_COMPLETION" && strTruthy g.content) = false := by
      simp [h1]
    rw [hcond]
    simp
  · intro selectedClassId draft groups eid vid nid a hsave
    rw [handleSaveAssignment] at hsave
    split at hsave
    · exact absurd hsave (by simp)
    · split at hsave
      · exact absurd hsave (by simp)
      · have := (Option.some_inj.mp hsave).symm
        rw [this]

/-- A concrete valid READING draft used by witnesses. -/
def sampleDraft : AssignmentDraft :=
  { title := some "T", dueDate := some "D", type := AssignmentType.READING }

/-- Witness for C5 amended: the replacement branch and the save-time mapping
discharged on concrete inputs. -/
theorem processGroup_contract_witness :
    (processGroup previewId
        { id := "g6", type := "NOTES_COMPLETION", content := some "a [b] c" }).questions =
      compileNotes previewId "a [b] c" ∧
    ∃ a, handleSaveAssignment (some "c1") sampleDraft [staleNotesGroup] previewId
          none none "n1" = some a ∧
      a.questionGroups = some ([staleNotesGroup].map (processGroup previewId)) := by
  constructor
  · exact (processGroup_contract previewId
      { id := "g6", type := "NOTES_COMPLETION", content := some "a [b] c" }).1 rfl (by decide)
  · have hh : (handleSaveAssignment (some "c1") sampleDraft [staleNotesGroup] previewId
        none none "n1").isSome = true := by decide
    refine ⟨(handleSaveAssignment (some "c1") sampleDraft [staleNotesGroup] previewId
        none none "n1").get hh, (Option.some_get hh).symm, ?_⟩
    exact (processGroup_contract previewId staleNotesGroup).2.2 (some "c1") sampleDraft
      [staleNotesGroup] none none "n1" _ (Option.some_get hh).symm

/-! ## C6: what a group type change does to the auxiliary lists -/

/-- A MATCHING_HEADINGS group whose heading list already holds data. -/
def headingsGroup : QuestionGroup :=
  { id := "g7"
    type := "MATCHING_HEADINGS"
    headingList := some ["First heading"]
    matchOptions := some ["Option A"] }

/-- Counterexample to C6 as stated: switching this group to MCQ leaves both
auxiliary lists exactly as they were (non-empty), instead of resetting them
to empty. -/
theorem groupTypeChange_preserves_aux :
    handleGroupTypeChange [headingsGroup] 0 "MCQ" =
      [applyGroupTypeChange headingsGroup "MCQ"] ∧
    (applyGroupTypeChange headingsGroup "MCQ").headingList = some ["First heading"] ∧
    (applyGroupTypeChange headingsGroup "MCQ").matchOptions = some ["Option A"] ∧
    (applyGroupTypeChange headingsGroup "MCQ").headingList ≠ some [] ∧
    (applyGroupTypeChange headingsGroup "MCQ").matchOptions ≠ some [] := by
  refine ⟨by decide, by decide, by decide, by decide, by decide⟩

/-- C6 amended: changing a group's type sets the new type and its default
instruction and preserves the questions and any existing auxiliary data; the
auxiliary lists are only initialized to empty when they are currently absent
and the new type needs them (headingList for MATCHING_HEADINGS, matchOptions
for MATCHING_FEATURES / MATCHING_SENTENCE_ENDINGS). -/
theorem groupTypeChange_contract (g : QuestionGroup) (newType : String) :
    (applyGroupTypeChange g newType).type = newType ∧
    (applyGroupTypeChange g newType).instruction =
      (questionTypeInstructions newType).getD "" ∧
    (applyGroupTypeChange g newType).questions = g.questions ∧
    (applyGroupTypeChange g newType).content = g.content ∧
    (g.headingList ≠ none → (applyGroupTypeChange g newType).headingList = g.headingList) ∧
    (g.matchOptions ≠ none → (applyGroupTypeChange g newType).matchOptions = g.matchOptions) ∧
    (applyGroupTypeChange g newType).headingList =
      (if newType = "MATCHING_HEADINGS" ∧ g.headingList = none then some []
       else g.headingList) ∧
    (applyGroupTypeChange g newType).matchOptions =
      (if (newType = "MATCHING_FEATURES" ∨ newType = "MATCHING_SENTENCE_ENDINGS") ∧
          g.matchOptions = none then some []
       else g.matchOptions) := by
  unfold applyGroupTypeChange
  by_cases hh : newType = "MATCHING_HEADINGS" ∧ g.headingList = none
  · by_cases hm : (newType = "MATCHING_FEATURES" ∨ newType = "MATCHING_SENTENCE_ENDINGS") ∧
        g.matchOptions = none
    · exact absurd hm.1 (by rcases hh with ⟨hh1, _⟩ <;> rw [hh1] <;> simp)
    · simp [hh.1, hh.2]
  · by_cases hm : (newType = "MATCHING_FEATURES" ∨ newType = "MATCHING_SENTENCE_ENDINGS") ∧
        g.matchOptions = none
    · have hne : ¬ (newType == "MATCHING_HEADINGS" && g.headingList == none) = true := by
        simp only [Bool.and_eq_true, beq_iff_eq]
        rintro ⟨h1, h2⟩
        exact hh ⟨h1, by simpa using h2⟩
      simp only [Bool.not_eq_true] at hne
      rcases hm with ⟨hm1, hm2⟩
      rcases hm1 with hm1 | hm1 <;>
        simp [hne, hm1, hm2, hh]
    · have hne : ¬ (newType == "MATCHING_HEADINGS" && g.headingList == none) = true := by
        simp only [Bool.and_eq_true, beq_iff_eq]
        rintro ⟨h1, h2⟩
        exact hh ⟨h1, by simpa using h2⟩
      have hne2 : ¬ ((newType == "MATCHING_FEATURES" ||
          newType == "MATCHING_SENTENCE_ENDINGS") && g.matchOptions == none) = true := by
        simp only [Bool.and_eq_true, Bool.or_eq_true, beq_iff_eq]
        rintro ⟨h1, h2⟩
        exact hm ⟨h1, by simpa using h2⟩
      simp only [Bool.not_eq_true] at hne hne2
      simp [hne, hne2, hh, hm]

/-! ## C7: save-time validation -/

/-- Counterexample to C7 as stated: the save path never resolves classId
against the class list — with no classes in existence at all, a draft whose
classId is the unresolvable "c1" still saves (one entity is handed to
persistence), where the claim demands a fail-fast. -/
theorem handleSave_no_class_resolution :
    ("c1" ∉ ([] : List String)) ∧
    (handleSaveAssignment (some "c1") sampleDraft [] previewId none none "n1").isSome
      = true ∧
    (handleSaveAssignment (some "c1") sampleDraft [] previewId none none "n1").map
        (fun a => a.classId) = some "c1" := by
  refine ⟨by simp, by decide, by decide⟩

/-- C7 amended: saving fails fast (returns none, persisting nothing) exactly
when the title, the dueDate, or the selected/draft classId is absent or
empty, or the draft is a WRITING assignment with an absent or empty
writingPrompt; only presence of the classId is checked, not that it resolves
to an existing class. In every other case exactly one assignment entity is
produced for persistence. -/
theorem handleSaveAssignment_validation (selectedClassId : Option String)
    (draft : AssignmentDraft) (groups : List QuestionGroup) (mkId : Nat → String)
    (eid vid : Option String) (nid : String) :
    handleSaveAssignment selectedClassId draft groups mkId eid vid nid = none ↔
      (strTruthy draft.title = false ∨ strTruthy draft.dueDate = false ∨
        strTruthy (jsOrStr selectedClassId draft.classId) = false ∨
        (draft.type = AssignmentType.WRITING ∧ strTruthy draft.writingPrompt = false)) := by
  rw [handleSaveAssignment]
  by_cases h1 : ¬ strTruthy draft.title = true ∨ ¬ strTruthy draft.dueDate = true ∨
      ¬ strTruthy (jsOrStr selectedClassId draft.classId) = true
  · rw [if_pos h1]
    refine ⟨fun _ => ?_, fun _ => rfl⟩
    rcases h1 with h | h | h
    · exact Or.inl (by simpa using h)
    · exact Or.inr (Or.inl (by simpa using h))
    · exact Or.inr (Or.inr (Or.inl (by simpa using h)))
  · rw [if_neg h1]
    push_neg at h1
    obtain ⟨ht, hd, hc⟩ := h1
    by_cases h2 : draft.type = AssignmentType.WRITING ∧ ¬ strTruthy draft.writingPrompt = true
    · rw [if_pos h2]
      refine ⟨fun _ => ?_, fun _ => rfl⟩
      exact Or.inr (Or.inr (Or.inr ⟨h2.1, by simpa using h2.2⟩))
    · rw [if_neg h2]
      constructor
      · intro hx
        exact absurd hx (by simp)
      · intro hx
        rcases hx with h | h | h | h
        · rw [h] at ht; exact absurd ht (by simp)
        · rw [h] at hd; exact absurd hd (by simp)
        · rw [h] at hc; exact absurd hc (by simp)
        · exact absurd ⟨h.1, by simp [h.2]⟩ h2

/-! ## C8: per-question analytics -/

instance : IsTotal QuestionStat statLe := ⟨fun a b => le_total a.accuracy b.accuracy⟩

instance : IsTrans QuestionStat statLe := ⟨fun _ _ _ hab hbc => le_trans hab hbc⟩

/-- C8: the per-question statistics are computed over graded submissions only
(status GRADED with a report, for the selected assignment); a question's
attemptCount counts exactly the graded submissions whose report mentions it
(students who never attempted it are excluded); accuracy is the rounded
percentage of correctCount over attemptCount (0 with no attempts); and the
table is sorted ascending by accuracy, hardest first. -/
theorem questionStats_contract (a : Assignment) (subs : List Submission) :
    List.Sorted statLe (questionStats a subs) ∧
    (questionStats a subs).Perm
      ((flattenQuestions a).map (statFor (gradedSubmissionsFor a.id subs))) ∧
    (∀ q, (statFor (gradedSubmissionsFor a.id subs) q).attemptCount =
        (gradedSubmissionsFor a.id subs).countP (attempted q) ∧
      (statFor (gradedSubmissionsFor a.id subs) q).correctCount =
        (gradedSubmissionsFor a.id subs).countP (answeredCorrectly q) ∧
      (statFor (gradedSubmissionsFor a.id subs) q).accuracy =
        (if 0 < (gradedSubmissionsFor a.id subs).countP (attempted q) then
          jsRound (((gradedSubmissionsFor a.id subs).countP (answeredCorrectly q) : ℚ) /
            ((gradedSubmissionsFor a.id subs).countP (attempted q) : ℚ) * 100)
         else 0)) ∧
    (∀ s ∈ gradedSubmissionsFor a.id subs,
      s.status = "GRADED" ∧ s.report.isSome = true ∧ s.assignmentId = a.id) ∧
    (∀ (q : Question) (s : Submission), attempted q s = true ↔
      ∃ r, s.report = some r ∧ (r q.id).isSome = true) := by
  refine ⟨?_, ?_, ?_, ?_, ?_⟩
  · exact List.sorted_insertionSort statLe _
  · exact List.perm_insertionSort statLe _
  · intro q
    exact ⟨rfl, rfl, rfl⟩
  · intro s hs
    obtain ⟨hs1, hcond⟩ := List.mem_filter.mp hs
    obtain ⟨_, hassign⟩ := List.mem_filter.mp hs1
    simp only [Bool.and_eq_true, beq_iff_eq] at hcond hassign
    exact ⟨hcond.1, hcond.2, hassign⟩
  · intro q s
    rw [attempted]
    cases hrep : s.report with
    | none => simp
    | some r => simp

/-- A concrete graded submission for the sample assignment. -/
def gradedSub : Submission :=
  { id := "s1"
    assignmentId := "a1"
    studentId := "st1"
    answers := fun _ => none
    status := "GRADED"
    grade := some "3/4"
    report := some (fun _ => none) }

/-- Witness for C8: the graded-submissions-only conjunct discharged at a
concrete submission. -/
theorem questionStats_contract_witness :
    gradedSub.status = "GRADED" ∧ gradedSub.report.isSome = true ∧
      gradedSub.assignmentId = sampleReadingAssignment.id := by
  have hmem : gradedSub ∈ gradedSubmissionsFor sampleReadingAssignment.id [gradedSub] := by
    have h : gradedSubmissionsFor sampleReadingAssignment.id [gradedSub] = [gradedSub] := rfl
    rw [h]
    exact List.mem_singleton_self _
  exact (questionStats_contract sampleReadingAssignment [gradedSub]).2.2.2.1 gradedSub hmem

/-! ## C9: bounds of averageScore and completionRate -/

/-- A second submission by the same student for the same assignment. -/
def secondSub : Submission :=
  { id := "s2"
    assignmentId := "a1"
    studentId := "st1"
    answers := fun _ => none
    status := "SUBMITTED" }

/-- Counterexample to C9 as stated: with a one-student roster and two
submissions for the assignment (nothing deduplicates by student), the
completion rate is 200, outside [0,100]. -/
theorem completionRate_can_exceed_100 :
    completionRate "a1" [gradedSub, secondSub] ["st1"] = 200 ∧ ¬ ((200 : ℤ) ≤ 100) := by
  constructor
  · have h1 : (assignmentSubmissionsFor "a1" [gradedSub, secondSub]).length = 2 := rfl
    have h2 : (["st1"] : List String).length = 1 := rfl
    rw [completionRate, if_pos (by simp)]
    rw [h1, h2, jsRound]
    push_cast
    norm_num
  · decide

theorem jsRound_nonneg {q : ℚ} (h : 0 ≤ q) : 0 ≤ jsRound q := by
  rw [jsRound]
  apply Int.floor_nonneg.mpr
  linarith

theorem jsRound_le_100 {q : ℚ} (h : q ≤ 100) : jsRound q ≤ 100 := by
  rw [jsRound]
  have h2 : ⌊(100 : ℚ) + 1/2⌋ = 100 := by norm_num
  calc ⌊q + 1/2⌋ ≤ ⌊(100 : ℚ) + 1/2⌋ := Int.floor_le_floor (by linarith)
    _ = 100 := h2

theorem statFor_accuracy_of_no_attempts (gs : List Submission) (q : Question)
    (h : gs.countP (attempted q) = 0) : (statFor gs q).accuracy = 0 := by
  simp only [statFor]
  rw [h]
  simp

/-- C9 amended: the aggregation is total (integers, never NaN) and handles
the degenerate cases as specified — zero graded submissions give average 0,
and then every per-question accuracy is reported as 0 rather than 0/0 (more
generally, a question with no attempts has accuracy 0); an empty roster gives
completion 0 rather than a division by zero; averageScore lies in [0,100]
whenever every graded submission's parsed percentage does (as every
auto-graded grade string satisfies); completionRate is never negative and is
at most 100 whenever the submissions for the assignment do not outnumber the
roster. -/
theorem analytics_bounds (assignmentId : String) (subs : List Submission)
    (students : List String) :
    (gradedSubmissionsFor assignmentId subs = [] → averageScore assignmentId subs = 0) ∧
    ((∀ s ∈ gradedSubmissionsFor assignmentId subs,
        0 ≤ submissionScore s.grade ∧ submissionScore s.grade ≤ 100) →
      0 ≤ averageScore assignmentId subs ∧ averageScore assignmentId subs ≤ 100) ∧
    (students = [] → completionRate assignmentId subs students = 0) ∧
    0 ≤ completionRate assignmentId subs students ∧
    ((assignmentSubmissionsFor assignmentId subs).length ≤ students.length →
      completionRate assignmentId subs students ≤ 100) ∧
    (∀ q : Question,
      (gradedSubmissionsFor assignmentId subs).countP (attempted q) = 0 →
      (statFor (gradedSubmissionsFor assignmentId subs) q).accuracy = 0) ∧
    (gradedSubmissionsFor assignmentId subs = [] →
      ∀ q : Question, (statFor (gradedSubmissionsFor assignmentId subs) q).accuracy = 0) := by
  refine ⟨?_, ?_, ?_, ?_, ?_, ?_, ?_⟩
  · intro h
    simp [averageScore, h]
  · intro hbound
    rw [averageScore]
    set scores := (gradedSubmissionsFor assignmentId subs).map
      (fun s => submissionScore s.grade) with hscores
    by_cases hlen : 0 < scores.length
    · rw [if_pos hlen]
      have hmem : ∀ x ∈ scores, 0 ≤ x ∧ x ≤ 100 := by
        intro x hx
        rw [hscores] at hx
        obtain ⟨s, hs, hsx⟩ := List.mem_map.mp hx
        rw [← hsx]
        exact hbound s hs
      have hnonneg : 0 ≤ scores.sum := List.sum_nonneg (fun x hx => (hmem x hx).1)
      have hupper : scores.sum ≤ (scores.length : ℚ) * 100 := by
        have := List.sum_le_card_nsmul scores 100 (fun x hx => (hmem x hx).2)
        simpa [nsmul_eq_mul] using this
      have hlenpos : (0 : ℚ) < (scores.length : ℚ) := by exact_mod_cast hlen
      constructor
      · exact jsRound_nonneg (div_nonneg hnonneg (le_of_lt hlenpos))
      · apply jsRound_le_100
        rw [div_le_iff hlenpos]
        linarith
    · rw [if_neg hlen]
      norm_num
  · intro h
    simp [completionRate, h]
  · rw [completionRate]
    by_cases h : 0 < students.length
    · rw [if_pos h]
      apply jsRound_nonneg
      have h1 : (0 : ℚ) ≤ ((assignmentSubmissionsFor assignmentId subs).length : ℚ) := by
        exact_mod_cast Nat.zero_le _
      have h2 : (0 : ℚ) < (students.length : ℚ) := by exact_mod_cast h
      positivity
    · rw [if_neg h]
  · intro hle
    rw [completionRate]
    by_cases h : 0 < students.length
    · rw [if_pos h]
      apply jsRound_le_100
      have h2 : (0 : ℚ) < (students.length : ℚ) := by exact_mod_cast h
      have h3 : ((assignmentSubmissionsFor assignmentId subs).length : ℚ) ≤
          (students.length : ℚ) := by exact_mod_cast hle
      have h4 : ((assignmentSubmissionsFor assignmentId subs).length : ℚ) /
          (students.length : ℚ) ≤ 1 := by
        rw [div_le_one h2]
        exact h3
      linarith
    · rw [if_neg h]
      norm_num
  · intro q hq
    exact statFor_accuracy_of_no_attempts _ q hq
  · intro h q
    apply statFor_accuracy_of_no_attempts
    rw [h]
    rfl

theorem submissionScore_sample : submissionScore (some "3/4") = 75 := by
  simp [submissionScore, strTruthy, jsSplit, jsSplitAux, jsNumber, jsTrimList,
    parseDigitsNat, parseDigitsAux, digitVal, isWS]
  norm_num

/-- Witness for C9 amended: the bounded-average hypothesis discharged at a
concrete graded submission set. -/
theorem analytics_bounds_witness :
    0 ≤ averageScore "a1" [gradedSub] ∧ averageScore "a1" [gradedSub] ≤ 100 := by
  apply (analytics_bounds "a1" [gradedSub] ["st1"]).2.1
  intro s hs
  have hmem : gradedSubmissionsFor "a1" [gradedSub] = [gradedSub] := rfl
  rw [hmem] at hs
  have hseq : s = gradedSub := by simpa using hs
  rw [hseq]
  have hgrade : gradedSub.grade = some "3/4" := rfl
  rw [hgrade, submissionScore_sample]
  norm_num

/-! ## C10: the multi-select answer toggle invariant -/

/-- A single option letter, as produced by toLetter: one uppercase character. -/
def IsOptionLetter (x : String) : Prop :=
  ∃ c : Char, x = String.mk [c] ∧ 'A' ≤ c ∧ c ≤ 'Z'

/-- The multi-select correctAnswer encoding invariant: nothing selected, or
the comma-join of a nonempty, sorted, duplicate-free list of option letters. -/
def ValidSelection (t : Option String) : Prop :=
  t = none ∨ ∃ l : List String, l ≠ [] ∧ List.Sorted jsLeRel l ∧ l.Nodup ∧
    (∀ x ∈ l, IsOptionLetter x) ∧ t = some (jsJoin "," l)

theorem letter_ne_empty {x : String} (h : IsOptionLetter x) : x ≠ "" := by
  obtain ⟨c, hc, _, _⟩ := h
  rw [hc, ← data_ne_nil_iff]
  simp

theorem letter_comma_free {x : String} (h : IsOptionLetter x) :
    ∀ c ∈ x.data, c ≠ ',' := by
  obtain ⟨c, hc, hA, _⟩ := h
  intro d hd
  rw [hc] at hd
  simp at hd
  rw [hd]
  intro hcomma
  rw [hcomma] at hA
  exact absurd hA (by decide)

theorem letters_join_ne_empty {l : List String} (hne : l ≠ [])
    (hlet : ∀ x ∈ l, IsOptionLetter x) : jsJoin "," l ≠ "" := by
  cases l with
  | nil => exact absurd rfl hne
  | cons x t => exact jsJoin_cons_ne_empty x t (letter_ne_empty (hlet x (by simp)))

theorem letters_split_join {l : List String} (hne : l ≠ [])
    (hlet : ∀ x ∈ l, IsOptionLetter x) : jsSplit ',' (jsJoin "," l) = l :=
  jsSplit_join l hne (fun x hx => letter_comma_free (hlet x hx))

theorem filter_ne_perm {l : List String} (hnd : l.Nodup) {a : String} (ha : a ∈ l) :
    l.Perm (a :: l.filter (fun x => x ≠ a)) := by
  induction l with
  | nil => exact absurd ha (by simp)
  | cons b t ih =>
    rcases List.mem_cons.mp ha with hab | hat
    · have hbt : b ∉ t := (List.nodup_cons.mp hnd).1
      have hfb : (decide (b ≠ a)) = false := by simp [hab]
      have hft : t.filter (fun x => x ≠ a) = t := by
        apply List.filter_eq_self.mpr
        intro x hx
        simp only [decide_eq_true_eq]
        intro hxa
        rw [hxa, hab] at hx
        exact hbt hx
      rw [List.filter_cons, hfb, hft, ← hab]
      simp
    · have hba : b ≠ a := by
        intro hba
        exact (List.nodup_cons.mp hnd).1 (hba ▸ hat)
      have hfb : (decide (b ≠ a)) = true := by simp [hba]
      rw [List.filter_cons, hfb]
      simp only [if_pos rfl]
      exact ((ih (List.nodup_cons.mp hnd).2 hat).cons b).trans
        (List.Perm.swap a b (t.filter (fun x => x ≠ a)))

theorem toggle_none (letter : String) :
    toggleMcqCorrectAnswer none letter = some letter := by
  simp only [toggleMcqCorrectAnswer]
  rw [if_neg (List.not_mem_nil letter)]
  rfl

theorem toggle_single (letter : String) (hl : IsOptionLetter letter) :
    toggleMcqCorrectAnswer (some letter) letter = none := by
  simp only [toggleMcqCorrectAnswer]
  rw [if_neg (letter_ne_empty hl), jsSplit_no_sep ',' letter (letter_comma_free hl)]
  rw [if_pos (List.mem_singleton_self letter)]
  have hfilter : ([letter].filter (fun x => x ≠ letter)) = [] := by simp
  rw [hfilter]
  simp

/-- C10: the multi-select toggle preserves the encoding invariant — starting
from null or a sorted, duplicate-free, comma-joined selection of letters,
toggling a letter again yields null or such a string — and toggling the same
letter twice restores the original selection. -/
theorem toggle_invariant (t : Option String) (letter : String)
    (hv : ValidSelection t) (hl : IsOptionLetter letter) :
    ValidSelection (toggleMcqCorrectAnswer t letter) ∧
    toggleMcqCorrectAnswer (toggleMcqCorrectAnswer t letter) letter = t := by
  rcases hv with ht | ⟨l, hne, hsort, hnd, hlet, ht⟩
  · subst ht
    rw [toggle_none]
    refine ⟨Or.inr ⟨[letter], by simp, List.sorted_singleton letter, by simp, ?_, rfl⟩, ?_⟩
    · intro x hx
      rw [List.mem_singleton.mp hx]
      exact hl
    · exact toggle_single letter hl
  · subst ht
    have hjoin_ne : jsJoin "," l ≠ "" := letters_join_ne_empty hne hlet
    have hsplit : jsSplit ',' (jsJoin "," l) = l := letters_split_join hne hlet
    by_cases hmem : letter ∈ l
    · set next := l.filter (fun x => x ≠ letter) with hnext
      have hnext_sorted : List.Sorted jsLeRel next := hsort.filter _
      by_cases hnil : next = []
      · have hl_eq : l = [letter] := by
          have hall : ∀ x ∈ l, x = letter := by
            intro x hx
            have hfn := List.filter_eq_nil.mp hnil x hx
            simpa using hfn
          cases l with
          | nil => exact absurd rfl hne
          | cons b u =>
            have hb : b = letter := hall b (by simp)
            cases u with
            | nil => rw [hb]
            | cons c v =>
              exfalso
              have hc : c = letter := hall c (by simp)
              exact (List.nodup_cons.mp hnd).1 (by rw [hb, ← hc]; simp)
        have h1 : toggleMcqCorrectAnswer (some (jsJoin "," l)) letter = none := by
          simp only [toggleMcqCorrectAnswer]
          rw [if_neg hjoin_ne, hsplit, if_pos hmem, ← hnext, hnil]
          simp
        rw [h1, toggle_none]
        refine ⟨Or.inl rfl, ?_⟩
        rw [hl_eq]
        rfl
      · have hnext_nodup : next.Nodup := List.Nodup.filter _ hnd
        have hnext_let : ∀ x ∈ next, IsOptionLetter x := by
          intro x hx
          exact hlet x (List.mem_filter.mp hx).1
        have hlen : next.length ≠ 0 := by
          intro h0
          exact hnil (List.length_eq_zero.mp h0)
        have h1 : toggleMcqCorrectAnswer (some (jsJoin "," l)) letter =
            some (jsJoin "," next) := by
          simp only [toggleMcqCorrectAnswer]
          rw [if_neg hjoin_ne, hsplit, if_pos hmem, ← hnext, if_pos hlen,
            jsSortStrings_of_sorted hnext_sorted]
        have hnotmem : letter ∉ next := by
          intro hmem2
          have hp := (List.mem_filter.mp hmem2).2
          simp at hp
        have h2 : toggleMcqCorrectAnswer (some (jsJoin "," next)) letter =
            some (jsJoin "," l) := by
          simp only [toggleMcqCorrectAnswer]
          rw [if_neg (letters_join_ne_empty hnil hnext_let),
            letters_split_join hnil hnext_let, if_neg hnotmem]
          have hperm : (next ++ [letter]).Perm l :=
            (List.perm_append_singleton letter next).trans (filter_ne_perm hnd hmem).symm
          have hperm2 : (jsSortStrings (next ++ [letter])).Perm l :=
            (jsSortStrings_perm _).trans hperm
          rw [List.eq_of_perm_of_sorted hperm2 (jsSortStrings_sorted _) hsort]
        rw [h1, h2]
        exact ⟨Or.inr ⟨next, hnil, hnext_sorted, hnext_nodup, hnext_let, rfl⟩, rfl⟩
    · set m := jsSortStrings (l ++ [letter]) with hm
      have hm_sorted : List.Sorted jsLeRel m := jsSortStrings_sorted _
      have hm_perm : m.Perm (l ++ [letter]) := jsSortStrings_perm _
      have happend_nodup : (l ++ [letter]).Nodup := by
        rw [List.nodup_append]
        refine ⟨hnd, List.nodup_singleton letter, ?_⟩
        intro a hal har
        rw [List.mem_singleton.mp har] at hal
        exact hmem hal
      have hm_nodup : m.Nodup := hm_perm.symm.nodup happend_nodup
      have hm_ne : m ≠ [] := by
        intro h0
        have hlen := hm_perm.length_eq
        rw [h0] at hlen
        simp at hlen
      have hm_let : ∀ x ∈ m, IsOptionLetter x := by
        intro x hx
        rcases List.mem_append.mp (hm_perm.mem_iff.mp hx) with h | h
        · exact hlet x h
        · rw [List.mem_singleton.mp h]
          exact hl
      have h1 : toggleMcqCorrectAnswer (some (jsJoin "," l)) letter =
          some (jsJoin "," m) := by
        simp only [toggleMcqCorrectAnswer]
        rw [if_neg hjoin_ne, hsplit, if_neg hmem]
      have hmem_m : letter ∈ m := hm_perm.mem_iff.mpr (by simp)
      have h2 : toggleMcqCorrectAnswer (some (jsJoin "," m)) letter =
          some (jsJoin "," l) := by
        simp only [toggleMcqCorrectAnswer]
        rw [if_neg (letters_join_ne_empty hm_ne hm_let),
          letters_split_join hm_ne hm_let, if_pos hmem_m]
        set next2 := m.filter (fun x => x ≠ letter) with hn2
        have hfl : (l ++ [letter]).filter (fun x => x ≠ letter) = l := by
          rw [List.filter_append]
          have hfl1 : l.filter (fun x => x ≠ letter) = l := by
            apply List.filter_eq_self.mpr
            intro a ha
            simp only [decide_eq_true_eq]
            intro hq
            rw [hq] at ha
            exact hmem ha
          have hfl2 : ([letter].filter (fun x => x ≠ letter)) = [] := by simp
          rw [hfl1, hfl2, List.append_nil]
        have hnext2_perm : next2.Perm l := by
          have hfp := hm_perm.filter (fun x => x ≠ letter)
          rw [hfl] at hfp
          exact hfp
        have hnext2_eq : next2 = l :=
          List.eq_of_perm_of_sorted hnext2_perm (hm_sorted.filter _) hsort
        rw [hnext2_eq, if_pos (fun h0 => hne (List.length_eq_zero.mp h0)),
          jsSortStrings_of_sorted hsort]
      rw [h1, h2]
      exact ⟨Or.inr ⟨m, hm_ne, hm_sorted, hm_nodup, hm_let, rfl⟩, rfl⟩

/-- Witness for C10: the invariant and the round trip discharged at the empty
selection and the letter "A". -/
theorem toggle_invariant_witness :
    ValidSelection (toggleMcqCorrectAnswer none "A") ∧
    toggleMcqCorrectAnswer (toggleMcqCorrectAnswer none "A") "A" = none :=
  toggle_invariant none "A" (Or.inl rfl) ⟨'A', rfl, by decide, by decide⟩

end JVLMS
